import Mathlib

/-!
Verification of the concurrent client emulation engine of the
centrifugo-cluster-demo TypeScript client.

The development shallowly embeds the TypeScript sources:
  - statistics.ts   : ClientStats, AggregatedStats.fromClientStats, percentile
  - client.ts       : EmulatorClient (connect, runCycle, run, disconnect,
                      reconnectWebSocket, and the token/completion coordinator)
  - the orchestrator variant with the counting Semaphore (runClient)

Machine numbers (timestamps, latencies) are modelled as rationals; counters as
naturals.  Asynchronous callback delivery is modelled as explicit state
machines driven by event traces.
-/

namespace CentrifugoEmu

/-- Per-client accumulator, mirroring the ClientStats class of statistics.ts
(lines 1-19).  Note that the class declares no reconnection-count field. -/
structure ClientStats where
  clientId : ℕ
  sessionId : String
  requestLatencies : List ℚ
  tokenLatencies : List ℚ
  cyclesCompleted : ℕ
  totalTokensReceived : ℕ
  totalRequests : ℕ
  connectionErrors : ℕ
  timeoutErrors : ℕ
  otherErrors : ℕ
  startTime : ℚ
  endTime : ℚ
deriving Repr, DecidableEq

/-- The ClientStats constructor: every counter zero, empty latency lists. -/
def ClientStats.init (clientId : ℕ) (sessionId : String) : ClientStats :=
  { clientId := clientId
    sessionId := sessionId
    requestLatencies := []
    tokenLatencies := []
    cyclesCompleted := 0
    totalTokensReceived := 0
    totalRequests := 0
    connectionErrors := 0
    timeoutErrors := 0
    otherErrors := 0
    startTime := 0
    endTime := 0 }

/-- Percentile with linear interpolation, translated from the percentile
function of statistics.ts (lines 136-151).  The JavaScript numeric sort
ascending is rendered as insertion sort by the standard order; the JavaScript
Number.isInteger test on the real-valued index is the denominator-one test on
the rational index. -/
def percentile (arr : List ℚ) (p : ℚ) : ℚ :=
  if arr.length = 0 then 0
  else
    let sorted := arr.insertionSort (· ≤ ·)
    let index : ℚ := (p / 100) * ((sorted.length : ℚ) - 1)
    if index.den = 1 then
      sorted.getD index.num.toNat 0
    else
      let lower := ⌊index⌋
      let upper := ⌈index⌉
      let weight := index - (lower : ℚ)
      sorted.getD lower.toNat 0 * (1 - weight) + sorted.getD upper.toNat 0 * weight

/-- Reference definition written from the specification text (section 4.4):
for percentile p over the sorted samples of length n take the real index
i = (p/100)*(n-1); if i is an integer return that element, otherwise
interpolate between the elements at floor i and ceil i, weighted by the
fractional part of i; the empty input yields 0. -/
def percentileSpec (arr : List ℚ) (p : ℚ) : ℚ :=
  if arr = [] then 0
  else
    let s := arr.insertionSort (· ≤ ·)
    let i : ℚ := (p / 100) * ((s.length : ℚ) - 1)
    if i = (⌊i⌋ : ℚ) then
      s.getD (⌊i⌋).toNat 0
    else
      s.getD (⌊i⌋).toNat 0 * (1 - Int.fract i) + s.getD (⌈i⌉).toNat 0 * Int.fract i

/-- Derived aggregate report, mirroring the AggregatedStats fields of
statistics.ts (lines 21-37). -/
structure AggregatedStats where
  totalClients : ℕ
  totalCycles : ℕ
  totalDuration : ℚ
  requestsPerSecond : ℚ
  tokensPerSecond : ℚ
  cyclesPerSecond : ℚ
  requestLatencyP50 : ℚ
  requestLatencyP95 : ℚ
  requestLatencyP99 : ℚ
  requestLatencyMax : ℚ
  tokenLatencyP50 : ℚ
  tokenLatencyP95 : ℚ
  tokenLatencyP99 : ℚ
  successfulConnections : ℕ
  failedConnections : ℕ
  totalErrors : ℕ
deriving Repr, DecidableEq

/-- The duration computation of AggregatedStats.fromClientStats
(statistics.ts lines 73-76): filter the clients with startTime > 0, take the
minimum startTime and the maximum endTime over them, and return their
difference when positive, else 0.  The Math.min / Math.max spreads over the
mapped arrays become folds over the nonempty filtered list; when the filtered
list is empty the JavaScript expression compares -Infinity with Infinity and
yields duration 0, rendered here by the empty match arm. -/
def fcsDuration (clientStats : List ClientStats) : ℚ :=
  match clientStats.filter (fun s => decide (0 < s.startTime)) with
  | [] => 0
  | v :: vs =>
    let start := (vs.map (fun s => s.startTime)).foldl min v.startTime
    let stop := (vs.map (fun s => s.endTime)).foldl max v.endTime
    if start < stop then stop - start else 0

/-- AggregatedStats.fromClientStats, translated from statistics.ts lines
43-112. -/
def fromClientStats (clientStats : List ClientStats) : AggregatedStats :=
  if clientStats.length = 0 then
    { totalClients := 0, totalCycles := 0, totalDuration := 0
      requestsPerSecond := 0, tokensPerSecond := 0, cyclesPerSecond := 0
      requestLatencyP50 := 0, requestLatencyP95 := 0, requestLatencyP99 := 0
      requestLatencyMax := 0
      tokenLatencyP50 := 0, tokenLatencyP95 := 0, tokenLatencyP99 := 0
      successfulConnections := 0, failedConnections := 0, totalErrors := 0 }
  else
    let allRequestLatencies := (clientStats.map (fun s => s.requestLatencies)).flatten
    let allTokenLatencies := (clientStats.map (fun s => s.tokenLatencies)).flatten
    let totalTokens : ℕ := clientStats.foldl (fun sum s => sum + s.totalTokensReceived) 0
    let totalRequests : ℕ := clientStats.foldl (fun sum s => sum + s.totalRequests) 0
    let totalErrors : ℕ := clientStats.foldl
      (fun sum s => sum + (s.connectionErrors + s.timeoutErrors + s.otherErrors)) 0
    let successful := clientStats.foldl
      (fun n s => if 0 < s.connectionErrors then n else n + 1) 0
    let failed := clientStats.foldl
      (fun n s => if 0 < s.connectionErrors then n + 1 else n) 0
    let duration := fcsDuration clientStats
    let totalCycles := clientStats.foldl (fun sum s => sum + s.cyclesCompleted) 0
    { totalClients := clientStats.length
      totalCycles := totalCycles
      totalDuration := duration
      requestsPerSecond := if 0 < duration then (totalRequests : ℚ) / duration else 0
      tokensPerSecond := if 0 < duration then (totalTokens : ℚ) / duration else 0
      cyclesPerSecond := if 0 < duration then (totalCycles : ℚ) / duration else 0
      requestLatencyP50 := percentile allRequestLatencies 50 * 1000
      requestLatencyP95 := percentile allRequestLatencies 95 * 1000
      requestLatencyP99 := percentile allRequestLatencies 99 * 1000
      requestLatencyMax :=
        match allRequestLatencies with
        | [] => 0
        | x :: xs => xs.foldl max x * 1000
      tokenLatencyP50 := percentile allTokenLatencies 50 * 1000
      tokenLatencyP95 := percentile allTokenLatencies 95 * 1000
      tokenLatencyP99 := percentile allTokenLatencies 99 * 1000
      successfulConnections := successful
      failedConnections := failed
      totalErrors := totalErrors }

/-- Reference duration written from the specification text (section 4.4):
minimum startTime to maximum endTime across only the clients with a valid
(non-zero) startTime, and 0 when that difference is not positive. -/
def durationSpec (stats : List ClientStats) : ℚ :=
  match stats.filter (fun s => decide (s.startTime ≠ 0)) with
  | [] => 0
  | v :: vs =>
    let start := (vs.map (fun s => s.startTime)).foldl min v.startTime
    let stop := (vs.map (fun s => s.endTime)).foldl max v.endTime
    max (stop - start) 0

/-!
Token/completion coordinator of client.ts: the fields tokenQueue,
tokenResolvers, donePromise/doneResolve and the message handler installed by
setupWebSocketHandlers (lines 147-194), the per-cycle reset at the top of
runCycle (lines 210-213), and waitForToken (lines 196-206).

Buffered tokens carry two ghost tags invisible to the program: the cycle the
event logically originates from (chosen by the environment, e.g. the cycle of
the request that produced it) and the cycle during which it arrived at the
handler.  Completion promises are modelled by a generation number that is
bumped by the per-cycle reset; resolving an already-resolved promise is a
no-op, as for a JavaScript promise.  Every satisfied wait is logged as a
Fulfil record pairing the waiting cycle with the tags of the event that
satisfied it. -/
structure QToken where
  origin : ℕ
  arrived : ℕ
deriving Repr, DecidableEq

/-- A satisfied wait: waiter is the cycle (for tokens) or promise generation
(for completion) that was waiting; origin and arrived are the ghost tags of
the event that satisfied it. -/
structure Fulfil where
  waiter : ℕ
  origin : ℕ
  arrived : ℕ
deriving Repr, DecidableEq

structure CoordState where
  currentCycle : ℕ
  tokenQueue : List QToken
  tokenResolvers : List ℕ
  doneGen : ℕ
  doneResolved : Bool
  tokenFulfils : List Fulfil
  doneFulfils : List Fulfil
deriving Repr, DecidableEq

/-- Events driving the coordinator: the start-of-cycle reset, arrival of a
token push, arrival of a done push, and a consumer calling waitForToken. -/
inductive CoordEvent where
  | resetCycle
  | arriveToken (origin : ℕ)
  | arriveDone (origin : ℕ)
  | waitToken
deriving Repr, DecidableEq

/-- State right after the EmulatorClient constructor: cycle counter 0, empty
buffer and waiter queue, an armed (unresolved) done promise. -/
def coordInit : CoordState :=
  { currentCycle := 0, tokenQueue := [], tokenResolvers := []
    doneGen := 0, doneResolved := false, tokenFulfils := [], doneFulfils := [] }

/-- One coordinator transition, translated from client.ts.
resetCycle: lines 210-213 of runCycle set tokenQueue to [] and replace
donePromise/doneResolve with a fresh pair; the tokenResolvers array is not
touched.  arriveToken: the message handler (lines 157-165) pushes the token
and, if a resolver is queued, shifts the oldest resolver, whose continuation
(lines 201-205) shifts the queue front; push-then-shift is rendered directly:
the shifted front is the newly pushed token when the buffer was empty, else
the old buffer front.  arriveDone: lines 167-169 resolve the
current done promise (a second resolution of the same promise has no effect).
waitToken: lines 196-206, pop the buffer if nonempty, else enqueue a resolver
for the current cycle. -/
def coordStep (s : CoordState) (e : CoordEvent) : CoordState :=
  match e with
  | .resetCycle =>
    { s with currentCycle := s.currentCycle + 1, tokenQueue := []
             doneGen := s.doneGen + 1, doneResolved := false }
  | .arriveToken origin =>
    match s.tokenResolvers with
    | [] => { s with tokenQueue := s.tokenQueue ++ [⟨origin, s.currentCycle⟩] }
    | rc :: rest =>
      match s.tokenQueue with
      | [] =>
        { s with tokenResolvers := rest
                 tokenFulfils := s.tokenFulfils ++ [⟨rc, origin, s.currentCycle⟩] }
      | t :: qrest =>
        { s with tokenQueue := qrest ++ [⟨origin, s.currentCycle⟩], tokenResolvers := rest
                 tokenFulfils := s.tokenFulfils ++ [⟨rc, t.origin, t.arrived⟩] }
  | .arriveDone origin =>
    if s.doneResolved then s
    else
      { s with doneResolved := true
               doneFulfils := s.doneFulfils ++ [⟨s.doneGen, origin, s.currentCycle⟩] }
  | .waitToken =>
    match s.tokenQueue with
    | t :: rest =>
      { s with tokenQueue := rest
               tokenFulfils := s.tokenFulfils ++ [⟨s.currentCycle, t.origin, t.arrived⟩] }
    | [] => { s with tokenResolvers := s.tokenResolvers ++ [s.currentCycle] }

/-- Run the coordinator over a trace of events from the constructor state. -/
def coordRun (trace : List CoordEvent) : CoordState :=
  trace.foldl coordStep coordInit

/-!
Counting semaphore of the orchestrator variant (src/unnamed/part_001,
lines 89-116) and the runClient wrapper (lines 128-137).

The ghost field active records the clients currently holding a permit, i.e.
between the resolution of their acquire() and their release(). -/
structure SemState where
  permits : ℕ
  queue : List ℕ
  active : List ℕ
deriving Repr, DecidableEq

inductive SemEvent where
  | tryAcquire (c : ℕ)
  | release (c : ℕ)
deriving Repr, DecidableEq

def semInit (k : ℕ) : SemState := { permits := k, queue := [], active := [] }

/-- One semaphore transition.  acquire (lines 97-106): with a permit
available, take it and run; otherwise push the resolver onto the queue.
release (lines 108-115): return the permit, then, if a waiter is queued,
shift the oldest waiter, re-take the permit on its behalf and wake it. -/
def semStep (s : SemState) (e : SemEvent) : SemState :=
  match e with
  | .tryAcquire c =>
    if 0 < s.permits then
      { s with permits := s.permits - 1, active := s.active ++ [c] }
    else
      { s with queue := s.queue ++ [c] }
  | .release c =>
    let s' := { s with permits := s.permits + 1, active := s.active.erase c }
    match s'.queue with
    | [] => s'
    | w :: rest =>
      { s' with permits := s'.permits - 1, queue := rest, active := s'.active ++ [w] }

/-- A client only calls acquire once (while neither active nor queued) and
only releases while it holds a permit; this is the protocol the runClient
wrapper imposes on the shared semaphore. -/
def semValid (s : SemState) : SemEvent → Prop
  | .tryAcquire c => c ∉ s.active ∧ c ∉ s.queue
  | .release c => c ∈ s.active

/-- States reachable from the initial semaphore of capacity k through valid
events. -/
inductive SemReach (k : ℕ) : SemState → Prop where
  | init : SemReach k (semInit k)
  | step {s : SemState} {e : SemEvent} :
      SemReach k s → semValid s e → SemReach k (semStep s e)

/-- The semaphore interaction of runClient (part_001 lines 128-137): acquire,
then run inside try, with release in the finally clause — both on the
path where run() resolves and on the path where it rejects. -/
def runClientSemEvents (c : ℕ) (runRejected : Bool) : List SemEvent :=
  match runRejected with
  | false => [SemEvent.tryAcquire c, SemEvent.release c]
  | true => [SemEvent.tryAcquire c, SemEvent.release c]

/-!
Environment-driven model of EmulatorClient (client.ts).  Each awaited
external interaction is resolved by an environment value: the session-create
REST call, the WebSocket establishment, and the three raced legs of runCycle.
runCycle and run are total functions of those outcomes, mirroring the
try/catch structure of the source. -/

/-- Outcome of the request-dispatch race at client.ts lines 218-227: the fetch
resolves first, the fetch rejects first (a transport error, whose message does
not contain the word timeout), or the request-timeout rejection wins the
race. -/
inductive RequestOutcome where
  | ok (latency : ℚ)
  | fetchError
  | timeout
deriving Repr, DecidableEq

/-- Outcome of racing waitForToken against the token timeout (lines
233-238). -/
inductive TokenWaitOutcome where
  | ok (latency : ℚ)
  | timeout
deriving Repr, DecidableEq

/-- Outcome of racing donePromise against the done timeout (lines 243-248). -/
inductive DoneWaitOutcome where
  | ok
  | timeout
deriving Repr, DecidableEq

/-- Outcome of the response.json() parse at line 250. -/
inductive ParseOutcome where
  | ok
  | error
deriving Repr, DecidableEq

/-- External behaviour of one cycle. -/
structure CycleEnv where
  request : RequestOutcome
  tokenWait : TokenWaitOutcome
  doneWait : DoneWaitOutcome
  parse : ParseOutcome
deriving Repr, DecidableEq

/-- runCycle of client.ts (lines 208-266) as a stats transformer.  The Bool
result is true when runCycle returns the response and false when it returns
null from the catch block.  The catch block classifies an error whose message
contains the word timeout (the three race timeouts) into timeoutErrors and
every other error into otherErrors. -/
def runCycle (env : CycleEnv) (s : ClientStats) : ClientStats × Bool :=
  match env.request with
  | .fetchError => ({ s with otherErrors := s.otherErrors + 1 }, false)
  | .timeout => ({ s with timeoutErrors := s.timeoutErrors + 1 }, false)
  | .ok reqLat =>
    let s1 := { s with requestLatencies := s.requestLatencies ++ [reqLat]
                       totalRequests := s.totalRequests + 1 }
    match env.tokenWait with
    | .timeout => ({ s1 with timeoutErrors := s1.timeoutErrors + 1 }, false)
    | .ok tokLat =>
      let s2 := { s1 with tokenLatencies := s1.tokenLatencies ++ [tokLat] }
      match env.doneWait with
      | .timeout => ({ s2 with timeoutErrors := s2.timeoutErrors + 1 }, false)
      | .ok =>
        match env.parse with
        | .error => ({ s2 with otherErrors := s2.otherErrors + 1 }, false)
        | .ok => ({ s2 with cyclesCompleted := s2.cyclesCompleted + 1 }, true)

/-- External behaviour of connect() (client.ts lines 30-89): the session
create call either yields a session id (with its token) or fails, and the
WebSocket open/handshake either succeeds within the connection timeout or
fails. -/
structure ConnectEnv where
  sessionResult : Option String
  wsOk : Bool
deriving Repr, DecidableEq

/-- Mutable client fields relevant to the model: sessionId, the stats record,
and whether the transport is currently established. -/
structure ClientState where
  sessionId : String
  stats : ClientStats
  wsConnected : Bool
deriving Repr, DecidableEq

def ClientState.init (clientId : ℕ) : ClientState :=
  { sessionId := "", stats := ClientStats.init clientId "", wsConnected := false }

/-- connect() of client.ts (lines 30-89).  Inside the try block: if no session
exists yet, the session-create call runs (and may fail); then the WebSocket is
opened (and may fail).  Any failure lands in the catch block, which increments
connectionErrors and returns false; a session id assigned before the failure
is kept. -/
def connect (env : ConnectEnv) (c : ClientState) : ClientState × Bool :=
  let afterSession : ClientState × Bool :=
    if c.sessionId = "" then
      match env.sessionResult with
      | none => (c, false)
      | some sid =>
        ({ c with sessionId := sid, stats := { c.stats with sessionId := sid } }, true)
    else (c, true)
  match afterSession with
  | (c1, false) =>
    ({ c1 with stats := { c1.stats with connectionErrors := c1.stats.connectionErrors + 1 } },
     false)
  | (c1, true) =>
    if env.wsOk then ({ c1 with wsConnected := true }, true)
    else
      ({ c1 with stats := { c1.stats with connectionErrors := c1.stats.connectionErrors + 1 } },
       false)

/-- disconnect() of client.ts (lines 268-288): if a session id exists, the
session-close REST call is issued inside a try/catch whose catch only logs, so
the call's success or failure does not change the result; then the WebSocket
is closed.  The Bool records whether the session-close call was issued. -/
def disconnect (closeOk : Bool) (c : ClientState) : ClientState × Bool :=
  let issued := c.sessionId ≠ ""
  ({ c with wsConnected := false }, issued)

/-- External behaviour of one whole run() of a client. -/
structure RunEnv where
  connectEnv : ConnectEnv
  cycles : ℕ → CycleEnv
  closeSessionOk : Bool
  startClock : ℚ
  endClock : ℚ

/-- run() of client.ts (lines 290-311): stamp startTime; connect, and on
failure stamp endTime and return the stats at once; otherwise run
cyclesPerClient sequential cycles, each through runCycle with its result only
logged; finally disconnect and stamp endTime.  The Bool records whether the
session-close call was issued during the run. -/
def run (cyclesPerClient : ℕ) (clientId : ℕ) (env : RunEnv) : ClientStats × Bool :=
  let c0 : ClientState :=
    { sessionId := ""
      stats := { ClientStats.init clientId "" with startTime := env.startClock }
      wsConnected := false }
  match connect env.connectEnv c0 with
  | (c1, false) => ({ c1.stats with endTime := env.endClock }, false)
  | (c1, true) =>
    let statsAfter :=
      (List.range cyclesPerClient).foldl (fun st i => (runCycle (env.cycles i) st).1) c1.stats
    let c2 := { c1 with stats := statsAfter }
    let (c3, issued) := disconnect env.closeSessionOk c2
    ({ c3.stats with endTime := env.endClock }, issued)

/-!
reconnectWebSocket (client.ts lines 91-145).  The dynamic property
this.stats.reconnectionCount incremented at line 132 is not declared on the
ClientStats class of statistics.ts, so it is modelled with JavaScript dynamic
semantics: reading the undeclared property yields undefined, and the postfix
increment coerces it through Number, so undefined becomes NaN and stays
NaN. -/
inductive JSVal where
  | undef
  | nan
  | num (q : ℚ)
deriving Repr, DecidableEq

/-- JavaScript postfix increment on a possibly-undefined numeric property. -/
def jsIncr : JSVal → JSVal
  | .undef => .nan
  | .nan => .nan
  | .num q => .num (q + 1)

/-- Backoff delay before the next attempt: 2 to the attempt times 1000 ms,
capped at 10000 ms (client.ts line 138). -/
def backoffDelay (attempt : ℕ) : ℕ := min (2 ^ attempt * 1000) 10000

/-- The attempt loop of reconnectWebSocket, driven by the per-attempt outcome
oracle.  Returns: whether reconnection succeeded, the number of attempts made,
the list of backoff delays slept, and the reconnectionCount property after the
call.  A successful attempt increments the dynamic counter and returns true at
once; a failed attempt sleeps min(2 to the attempt times 1000, 10000) ms
unless it was the last allowed attempt. -/
def reconnectAux (outcome : ℕ → Bool) (maxRetries : ℕ) (cnt : JSVal) :
    ℕ → ℕ → Bool × ℕ × List ℕ × JSVal
  | attempt, 0 => (false, attempt, [], cnt)
  | attempt, remaining + 1 =>
    if outcome attempt then (true, attempt + 1, [], jsIncr cnt)
    else
      let delays := if attempt < maxRetries - 1 then [backoffDelay attempt] else []
      let r := reconnectAux outcome maxRetries cnt (attempt + 1) remaining
      (r.1, r.2.1, delays ++ r.2.2.1, r.2.2.2)

/-- reconnectWebSocket with its default of 3 retries made explicit. -/
def reconnectWebSocket (outcome : ℕ → Bool) (maxRetries : ℕ) (cnt : JSVal) :
    Bool × ℕ × List ℕ × JSVal :=
  reconnectAux outcome maxRetries cnt 0 maxRetries

/-!
Helper lemmas for the percentile claims. -/

lemma rat_den_one_iff_eq_floor (q : ℚ) : q.den = 1 ↔ q = (⌊q⌋ : ℚ) := by
  constructor
  · intro h
    have hnum : (q.num : ℚ) = q := (Rat.den_eq_one_iff q).mp h
    have hfl : ⌊q⌋ = q.num := by
      conv_lhs => rw [← hnum]
      exact Int.floor_intCast q.num
    rw [hfl, hnum]
  · intro h
    rw [h]
    exact Rat.den_intCast ⌊q⌋

lemma rat_den_one_num_toNat (q : ℚ) (h : q.den = 1) : q.num.toNat = (⌊q⌋).toNat := by
  have hnum : (q.num : ℚ) = q := (Rat.den_eq_one_iff q).mp h
  have hfl : ⌊q⌋ = q.num := by
    conv_lhs => rw [← hnum]
    exact Int.floor_intCast q.num
  rw [hfl]

lemma percentile_eq_percentileSpec (arr : List ℚ) (p : ℚ) :
    percentile arr p = percentileSpec arr p := by
  by_cases h : arr = []
  · subst h; rfl
  · have hlen : ¬ arr.length = 0 := fun hh => h (List.length_eq_zero.mp hh)
    rw [percentile, percentileSpec, if_neg hlen, if_neg h]
    set s := arr.insertionSort (· ≤ ·) with hs
    set i : ℚ := (p / 100) * ((s.length : ℚ) - 1) with hi
    by_cases hden : i.den = 1
    · rw [if_pos hden, if_pos ((rat_den_one_iff_eq_floor i).mp hden),
        rat_den_one_num_toNat i hden]
    · rw [if_neg hden, if_neg (fun hh => hden ((rat_den_one_iff_eq_floor i).mpr hh))]
      rw [← Int.self_sub_floor]

lemma getD_mem_of_lt {l : List ℚ} {i : ℕ} (h : i < l.length) : l.getD i 0 ∈ l := by
  rw [List.getD_eq_getElem l 0 h]
  exact List.getElem_mem h

lemma sorted_getD_zero_le {l : List ℚ} (hs : l.Sorted (· ≤ ·)) :
    ∀ x ∈ l, l.getD 0 0 ≤ x := by
  intro x hx
  cases l with
  | nil => cases hx
  | cons a t =>
    rcases List.mem_cons.mp hx with rfl | hxt
    · simp
    · simpa using (List.sorted_cons.mp hs).1 x hxt

lemma sorted_le_getD_last {l : List ℚ} (hs : l.Sorted (· ≤ ·)) :
    ∀ x ∈ l, x ≤ l.getD (l.length - 1) 0 := by
  induction l with
  | nil => intro x hx; cases hx
  | cons a t ih =>
    intro x hx
    cases t with
    | nil =>
      rcases List.mem_cons.mp hx with rfl | hh
      · simp
      · cases hh
    | cons b u =>
      have hcons := List.sorted_cons.mp hs
      have hgd : (a :: b :: u).getD ((a :: b :: u).length - 1) 0
          = (b :: u).getD ((b :: u).length - 1) 0 := by
        simp [List.getD_cons_succ]
      rcases List.mem_cons.mp hx with rfl | hxt
      · have hmem : (b :: u).getD ((b :: u).length - 1) 0 ∈ b :: u :=
          getD_mem_of_lt (by simp)
        rw [hgd]
        exact hcons.1 _ hmem
      · rw [hgd]
        exact ih hcons.2 x hxt

lemma percentile_zero_eq (arr : List ℚ) (h : arr ≠ []) :
    percentile arr 0 = (arr.insertionSort (· ≤ ·)).getD 0 0 := by
  have hlen : ¬ arr.length = 0 := fun hh => h (List.length_eq_zero.mp hh)
  rw [percentile, if_neg hlen]
  norm_num

lemma percentile_hundred_eq (arr : List ℚ) (h : arr ≠ []) :
    percentile arr 100 = (arr.insertionSort (· ≤ ·)).getD (arr.length - 1) 0 := by
  have hlen : ¬ arr.length = 0 := fun hh => h (List.length_eq_zero.mp hh)
  have hn : 1 ≤ arr.length := Nat.one_le_iff_ne_zero.mpr hlen
  rw [percentile, if_neg hlen]
  have hsl : (arr.insertionSort (· ≤ ·)).length = arr.length :=
    List.length_insertionSort _ arr
  have hidx : ((100 : ℚ) / 100) * (((arr.insertionSort (· ≤ ·)).length : ℚ) - 1)
      = ((arr.length - 1 : ℕ) : ℚ) := by
    rw [hsl]
    push_cast [Nat.cast_sub hn]
    ring
  simp only [hidx]
  rw [if_pos (by simp [Rat.den_natCast])]
  simp [Rat.num_natCast]

lemma percentileSpec_example : percentileSpec [10, 20, 30, 40] 50 = 25 := by
  have hc : ⌈(3:ℚ)/2⌉ = 2 := by norm_num [Int.ceil_eq_iff]
  norm_num [percentileSpec, List.insertionSort, List.orderedInsert, Int.fract, hc]
  rw [if_neg (by simp)]
  rw [show ([10, 20, 30, 40] : List ℚ)[Int.toNat 2] = 30 from rfl]
  norm_num

lemma mem_insertionSort_iff {arr : List ℚ} {x : ℚ} :
    x ∈ arr.insertionSort (· ≤ ·) ↔ x ∈ arr :=
  List.Perm.mem_iff (List.perm_insertionSort _ arr)

/-- C3: percentile(arr, p) agrees with the linear-interpolation reference
definition for every sample list and every p in [0, 100]; the empty input
yields 0 for every p; on nonempty input percentile at 0 is the minimum of the
samples and percentile at 100 the maximum; and
percentile [10, 20, 30, 40] 50 = 25. -/
theorem percentile_linear_interpolation (arr : List ℚ) (p : ℚ)
    (hp0 : 0 ≤ p) (hp100 : p ≤ 100) :
    percentile arr p = percentileSpec arr p ∧
    percentile [] p = 0 ∧
    (arr ≠ [] →
      (percentile arr 0 ∈ arr ∧ ∀ x ∈ arr, percentile arr 0 ≤ x) ∧
      (percentile arr 100 ∈ arr ∧ ∀ x ∈ arr, x ≤ percentile arr 100)) ∧
    percentile [10, 20, 30, 40] 50 = 25 := by
  refine ⟨percentile_eq_percentileSpec arr p, by simp [percentile], fun h => ⟨?_, ?_⟩,
    (percentile_eq_percentileSpec _ _).trans percentileSpec_example⟩
  · have hsorted := List.sorted_insertionSort (· ≤ ·) arr
    have hne : arr.insertionSort (· ≤ ·) ≠ [] := by
      intro hh
      apply h
      have := List.length_insertionSort (· ≤ ·) arr
      rw [hh] at this
      exact List.length_eq_zero.mp this.symm
    have hlt : 0 < (arr.insertionSort (· ≤ ·)).length := List.length_pos.mpr hne
    rw [percentile_zero_eq arr h]
    refine ⟨mem_insertionSort_iff.mp (getD_mem_of_lt hlt), fun x hx => ?_⟩
    exact sorted_getD_zero_le hsorted x (mem_insertionSort_iff.mpr hx)
  · have hsorted := List.sorted_insertionSort (· ≤ ·) arr
    have hsl : (arr.insertionSort (· ≤ ·)).length = arr.length :=
      List.length_insertionSort _ arr
    have hne : arr.insertionSort (· ≤ ·) ≠ [] := by
      intro hh
      apply h
      rw [hh] at hsl
      exact List.length_eq_zero.mp hsl.symm
    have hlt : arr.length - 1 < (arr.insertionSort (· ≤ ·)).length := by
      rw [hsl]
      have := List.length_pos.mpr h
      omega
    rw [percentile_hundred_eq arr h]
    refine ⟨mem_insertionSort_iff.mp (getD_mem_of_lt hlt), fun x hx => ?_⟩
    have := sorted_le_getD_last hsorted x (mem_insertionSort_iff.mpr hx)
    rwa [hsl] at this

/-- Witness for C3 at arr = [10, 20, 30, 40], p = 50. -/
theorem percentile_linear_interpolation_witness :
    ((0:ℚ) ≤ 50 ∧ (50:ℚ) ≤ 100) ∧
    (percentile [10, 20, 30, 40] 50 = percentileSpec [10, 20, 30, 40] 50 ∧
      percentile [] 50 = 0 ∧
      (([10, 20, 30, 40] : List ℚ) ≠ [] →
        (percentile [10, 20, 30, 40] 0 ∈ ([10, 20, 30, 40] : List ℚ) ∧
          ∀ x ∈ ([10, 20, 30, 40] : List ℚ), percentile [10, 20, 30, 40] 0 ≤ x) ∧
        (percentile [10, 20, 30, 40] 100 ∈ ([10, 20, 30, 40] : List ℚ) ∧
          ∀ x ∈ ([10, 20, 30, 40] : List ℚ), x ≤ percentile [10, 20, 30, 40] 100)) ∧
      percentile [10, 20, 30, 40] 50 = 25) :=
  ⟨⟨by norm_num, by norm_num⟩,
    percentile_linear_interpolation [10, 20, 30, 40] 50 (by norm_num) (by norm_num)⟩

/-!
Helper lemmas for the aggregation claims. -/

lemma foldl_count_pos (l : List ClientStats) (n : ℕ) :
    l.foldl (fun n s => if 0 < s.connectionErrors then n + 1 else n) n
      = n + l.countP (fun s => decide (0 < s.connectionErrors)) := by
  induction l generalizing n with
  | nil => simp
  | cons a t ih =>
    by_cases h : 0 < a.connectionErrors
    · simp only [List.foldl_cons, List.countP_cons, if_pos h, ih]
      simp [h]
      omega
    · simp only [List.foldl_cons, List.countP_cons, if_neg h, ih]
      simp [h]

lemma foldl_count_zero (l : List ClientStats) (n : ℕ) :
    l.foldl (fun n s => if 0 < s.connectionErrors then n else n + 1) n
      = n + l.countP (fun s => decide (s.connectionErrors = 0)) := by
  induction l generalizing n with
  | nil => simp
  | cons a t ih =>
    by_cases h : 0 < a.connectionErrors
    · simp only [List.foldl_cons, List.countP_cons, if_pos h, ih]
      have h0 : ¬ a.connectionErrors = 0 := by omega
      simp [h0]
    · simp only [List.foldl_cons, List.countP_cons, if_neg h, ih]
      have h0 : a.connectionErrors = 0 := by omega
      simp [h0]
      omega

lemma countP_partition (l : List ClientStats) :
    l.countP (fun s => decide (s.connectionErrors = 0))
      + l.countP (fun s => decide (0 < s.connectionErrors)) = l.length := by
  induction l with
  | nil => simp
  | cons a t ih =>
    by_cases h : 0 < a.connectionErrors
    · have h0 : ¬ a.connectionErrors = 0 := by omega
      simp [List.countP_cons, h, h0]
      omega
    · have h0 : a.connectionErrors = 0 := by omega
      simp [List.countP_cons, h, h0]
      omega

/-- C10: fromClientStats partitions the clients exactly: failedConnections
counts the clients with connectionErrors > 0, successfulConnections counts
those with connectionErrors = 0, and the two sum to totalClients, the length
of the input list. -/
theorem fromClientStats_partition (stats : List ClientStats) :
    (fromClientStats stats).failedConnections
        = stats.countP (fun s => decide (0 < s.connectionErrors)) ∧
    (fromClientStats stats).successfulConnections
        = stats.countP (fun s => decide (s.connectionErrors = 0)) ∧
    (fromClientStats stats).successfulConnections
        + (fromClientStats stats).failedConnections = stats.length ∧
    (fromClientStats stats).totalClients = stats.length := by
  by_cases h : stats = []
  · subst h
    refine ⟨rfl, rfl, rfl, rfl⟩
  · have hlen : ¬ stats.length = 0 := fun hh => h (List.length_eq_zero.mp hh)
    simp only [fromClientStats, if_neg hlen]
    refine ⟨by simpa using foldl_count_pos stats 0, by simpa using foldl_count_zero stats 0,
      ?_, by simp⟩
    rw [foldl_count_pos stats 0, foldl_count_zero stats 0]
    simpa using countP_partition stats

lemma fcsDuration_eq_durationSpec (stats : List ClientStats)
    (hpos : ∀ s ∈ stats, 0 ≤ s.startTime) :
    fcsDuration stats = durationSpec stats := by
  have hfilter : stats.filter (fun s => decide (0 < s.startTime))
      = stats.filter (fun s => decide (s.startTime ≠ 0)) := by
    refine List.filter_congr fun s hs => ?_
    have h0 : (0 : ℚ) ≤ s.startTime := hpos s hs
    have : (0 < s.startTime) ↔ (s.startTime ≠ 0) := by
      rw [h0.lt_iff_ne]
      exact ne_comm
    exact decide_eq_decide.mpr this
  rw [fcsDuration, durationSpec, hfilter]
  cases stats.filter (fun s => decide (s.startTime ≠ 0)) with
  | nil => rfl
  | cons v vs =>
    simp only
    set start := (vs.map (fun s => s.startTime)).foldl min v.startTime
    set stop := (vs.map (fun s => s.endTime)).foldl max v.endTime
    rcases lt_or_le start stop with hlt | hle
    · rw [if_pos hlt]
      exact (max_eq_left (sub_nonneg.mpr hlt.le)).symm
    · rw [if_neg (not_lt.mpr hle)]
      exact (max_eq_right (sub_nonpos.mpr hle)).symm

/-- C7: on every nonempty input with nonnegative start timestamps,
fromClientStats computes totalDuration as the reference wall-clock duration
(maximum endTime minus minimum startTime over the clients with a valid
startTime, clamped at 0), and whenever that duration is 0 the three derived
rates are exactly 0. -/
theorem fromClientStats_duration_rates (stats : List ClientStats) (hne : stats ≠ [])
    (hpos : ∀ s ∈ stats, 0 ≤ s.startTime) :
    (fromClientStats stats).totalDuration = durationSpec stats ∧
    ((fromClientStats stats).totalDuration = 0 →
      (fromClientStats stats).requestsPerSecond = 0 ∧
      (fromClientStats stats).tokensPerSecond = 0 ∧
      (fromClientStats stats).cyclesPerSecond = 0) := by
  have hlen : ¬ stats.length = 0 := fun hh => hne (List.length_eq_zero.mp hh)
  simp only [fromClientStats, if_neg hlen]
  refine ⟨fcsDuration_eq_durationSpec stats hpos, fun h => ?_⟩
  rw [h]
  norm_num

/-- A one-client input with startTime = endTime = 1: valid startTime and
wall-clock duration 0. -/
def durationWitnessStats : ClientStats :=
  { ClientStats.init 0 "" with startTime := 1, endTime := 1 }

/-- Witness for C7 at the one-client input above. -/
theorem fromClientStats_duration_rates_witness :
    (([durationWitnessStats] : List ClientStats) ≠ [] ∧
      ∀ s ∈ [durationWitnessStats], (0:ℚ) ≤ s.startTime) ∧
    ((fromClientStats [durationWitnessStats]).totalDuration
        = durationSpec [durationWitnessStats] ∧
      ((fromClientStats [durationWitnessStats]).totalDuration = 0 →
        (fromClientStats [durationWitnessStats]).requestsPerSecond = 0 ∧
        (fromClientStats [durationWitnessStats]).tokensPerSecond = 0 ∧
        (fromClientStats [durationWitnessStats]).cyclesPerSecond = 0)) :=
  ⟨⟨by decide, by decide⟩,
    fromClientStats_duration_rates [durationWitnessStats] (by decide) (by decide)⟩

/-!
Helper lemmas for the client run claims. -/

/-- Whether the request-dispatch race leg succeeded. -/
def requestOk : RequestOutcome → Bool
  | .ok _ => true
  | .fetchError => false
  | .timeout => false

lemma runCycle_totalRequests_delta (env : CycleEnv) (s : ClientStats) :
    (runCycle env s).1.totalRequests
      = s.totalRequests + (if requestOk env.request then 1 else 0) := by
  rcases env with ⟨req, tok, don, par⟩
  cases req <;> cases tok <;> cases don <;> cases par <;> simp [runCycle, requestOk]

lemma runCycle_preserves_le (env : CycleEnv) (s : ClientStats)
    (h : s.cyclesCompleted ≤ s.totalRequests) :
    (runCycle env s).1.cyclesCompleted ≤ (runCycle env s).1.totalRequests := by
  rcases env with ⟨req, tok, don, par⟩
  cases req <;> cases tok <;> cases don <;> cases par <;> simp [runCycle] <;> omega

lemma foldl_runCycle_totalRequests (l : List ℕ) (cyc : ℕ → CycleEnv) (st : ClientStats) :
    (l.foldl (fun s i => (runCycle (cyc i) s).1) st).totalRequests
      = st.totalRequests + l.countP (fun i => requestOk (cyc i).request) := by
  induction l generalizing st with
  | nil => simp
  | cons a t ih =>
    rw [List.foldl_cons, ih, List.countP_cons, runCycle_totalRequests_delta]
    by_cases h : requestOk (cyc a).request <;> simp [h] <;> omega

lemma foldl_runCycle_preserves_le (l : List ℕ) (cyc : ℕ → CycleEnv) (st : ClientStats)
    (h : st.cyclesCompleted ≤ st.totalRequests) :
    (l.foldl (fun s i => (runCycle (cyc i) s).1) st).cyclesCompleted
      ≤ (l.foldl (fun s i => (runCycle (cyc i) s).1) st).totalRequests := by
  induction l generalizing st with
  | nil => simpa using h
  | cons a t ih =>
    rw [List.foldl_cons]
    exact ih _ (runCycle_preserves_le (cyc a) st h)

lemma connect_success_eq (e : ConnectEnv) (c : ClientState) (sid : String)
    (hsid : c.sessionId = "") (hsr : e.sessionResult = some sid) (hws : e.wsOk = true) :
    connect e c
      = ({ sessionId := sid, stats := { c.stats with sessionId := sid }
           wsConnected := true }, true) := by
  rcases e with ⟨sr, ws⟩
  cases hsr
  cases hws
  simp [connect, hsid]

lemma connect_failure (e : ConnectEnv) (c : ClientState)
    (hsid : c.sessionId = "")
    (h : e.sessionResult = none ∨ e.wsOk = false) :
    (connect e c).2 = false ∧
    ((connect e c).1).stats.connectionErrors = c.stats.connectionErrors + 1 ∧
    ((connect e c).1).stats.cyclesCompleted = c.stats.cyclesCompleted ∧
    ((connect e c).1).stats.totalRequests = c.stats.totalRequests := by
  rcases e with ⟨sr, ws⟩
  cases sr with
  | none => cases ws <;> simp [connect, hsid]
  | some sid =>
    cases ws with
    | false => simp [connect, hsid]
    | true => simp at h

/-- C4: run() is a total function into ClientStats for every environment
(never throws), and when connection establishment fails — the session-create
call or the transport open fails — run() records exactly one connection error
and returns at once with zero cycles attempted: cyclesCompleted = 0 and
totalRequests = 0. -/
theorem run_connect_failure_recorded (n cid : ℕ) (env : RunEnv)
    (h : env.connectEnv.sessionResult = none ∨ env.connectEnv.wsOk = false) :
    (run n cid env).1.connectionErrors = 1 ∧
    (run n cid env).1.cyclesCompleted = 0 ∧
    (run n cid env).1.totalRequests = 0 := by
  have hc := connect_failure env.connectEnv
    { sessionId := ""
      stats := { ClientStats.init cid "" with startTime := env.startClock }
      wsConnected := false }
    rfl h
  rw [run]
  rcases hcc : connect env.connectEnv
      { sessionId := ""
        stats := { ClientStats.init cid "" with startTime := env.startClock }
        wsConnected := false }
    with ⟨c1, b⟩
  rw [hcc] at hc
  cases b with
  | false =>
    refine ⟨?_, ?_, ?_⟩
    · simpa [ClientStats.init] using hc.2.1
    · simpa [ClientStats.init] using hc.2.2.1
    · simpa [ClientStats.init] using hc.2.2.2
  | true => simp at hc

/-- A cycle in which every leg succeeds. -/
def cycleEnvOk : CycleEnv :=
  { request := RequestOutcome.ok 1, tokenWait := TokenWaitOutcome.ok 1
    doneWait := DoneWaitOutcome.ok, parse := ParseOutcome.ok }

/-- A run environment whose session-create call fails. -/
def envConnFail : RunEnv :=
  { connectEnv := { sessionResult := none, wsOk := true }
    cycles := fun _ => cycleEnvOk, closeSessionOk := true
    startClock := 0, endClock := 1 }

/-- Witness for C4 at a concrete environment whose session-create call
fails. -/
theorem run_connect_failure_recorded_witness :
    (envConnFail.connectEnv.sessionResult = none ∨ envConnFail.connectEnv.wsOk = false) ∧
    ((run 2 0 envConnFail).1.connectionErrors = 1 ∧
      (run 2 0 envConnFail).1.cyclesCompleted = 0 ∧
      (run 2 0 envConnFail).1.totalRequests = 0) :=
  ⟨Or.inl rfl, run_connect_failure_recorded 2 0 envConnFail (Or.inl rfl)⟩

lemma connect_preserves_counts (e : ConnectEnv) (c : ClientState) :
    ((connect e c).1).stats.cyclesCompleted = c.stats.cyclesCompleted ∧
    ((connect e c).1).stats.totalRequests = c.stats.totalRequests := by
  rcases e with ⟨sr, ws⟩
  by_cases hsid : c.sessionId = "" <;> cases sr <;> cases ws <;> simp [connect, hsid]

/-- C6: the invariant totalRequests >= cyclesCompleted.  Every runCycle call
preserves it; within one cycle the increment of cyclesCompleted never exceeds
the increment of totalRequests (totalRequests is bumped first, and a timed-out
or failed cycle can bump totalRequests without bumping cyclesCompleted); and
the stats returned by every complete run() satisfy it. -/
theorem totalRequests_ge_cyclesCompleted :
    (∀ env s, s.cyclesCompleted ≤ s.totalRequests →
        (runCycle env s).1.cyclesCompleted ≤ (runCycle env s).1.totalRequests) ∧
    (∀ env s, (runCycle env s).1.cyclesCompleted - s.cyclesCompleted
        ≤ (runCycle env s).1.totalRequests - s.totalRequests) ∧
    (∀ n cid env, (run n cid env).1.cyclesCompleted ≤ (run n cid env).1.totalRequests) := by
  refine ⟨runCycle_preserves_le, ?_, ?_⟩
  · intro env s
    rcases env with ⟨req, tok, don, par⟩
    cases req <;> cases tok <;> cases don <;> cases par <;> simp [runCycle]
  · intro n cid env
    rw [run]
    rcases hcc : connect env.connectEnv
        { sessionId := ""
          stats := { ClientStats.init cid "" with startTime := env.startClock }
          wsConnected := false }
      with ⟨c1, b⟩
    have hpres := connect_preserves_counts env.connectEnv
      { sessionId := ""
        stats := { ClientStats.init cid "" with startTime := env.startClock }
        wsConnected := false }
    rw [hcc] at hpres
    have hcyc : c1.stats.cyclesCompleted = 0 := by
      simpa [ClientStats.init] using hpres.1
    have hreq : c1.stats.totalRequests = 0 := by
      simpa [ClientStats.init] using hpres.2
    cases b with
    | false => simp [hcyc, hreq]
    | true =>
      simp only [disconnect]
      have := foldl_runCycle_preserves_le (List.range n) env.cycles c1.stats
        (by omega)
      simpa using this

/-- Witness for C6 at the all-success cycle environment and the fresh
stats record. -/
theorem totalRequests_ge_cyclesCompleted_witness :
    ((ClientStats.init 0 "").cyclesCompleted ≤ (ClientStats.init 0 "").totalRequests) ∧
    ((runCycle cycleEnvOk (ClientStats.init 0 "")).1.cyclesCompleted
      ≤ (runCycle cycleEnvOk (ClientStats.init 0 "")).1.totalRequests) :=
  ⟨by decide, totalRequests_ge_cyclesCompleted.1 cycleEnvOk (ClientStats.init 0 "") (by decide)⟩

/-- C5: each of the three race legs of runCycle that loses to its timeout is
classified as a timeout (timeoutErrors incremented, otherErrors untouched)
and makes runCycle return null; a transport rejection or a parse failure
increments otherErrors instead; when only the completion wait times out,
totalRequests has already been incremented while cyclesCompleted has not; and
the run loop proceeds past failed cycles — with connection established, the
final totalRequests counts the request-leg successes of all cyclesPerClient
scheduled cycles. -/
theorem runCycle_timeout_classification :
    (∀ s env, env.request = RequestOutcome.timeout →
        runCycle env s = ({ s with timeoutErrors := s.timeoutErrors + 1 }, false)) ∧
    (∀ s env lat, env.request = RequestOutcome.ok lat →
        env.tokenWait = TokenWaitOutcome.timeout →
        (runCycle env s).2 = false ∧
        (runCycle env s).1.timeoutErrors = s.timeoutErrors + 1 ∧
        (runCycle env s).1.otherErrors = s.otherErrors) ∧
    (∀ s env lat tlat, env.request = RequestOutcome.ok lat →
        env.tokenWait = TokenWaitOutcome.ok tlat →
        env.doneWait = DoneWaitOutcome.timeout →
        (runCycle env s).2 = false ∧
        (runCycle env s).1.timeoutErrors = s.timeoutErrors + 1 ∧
        (runCycle env s).1.otherErrors = s.otherErrors ∧
        (runCycle env s).1.totalRequests = s.totalRequests + 1 ∧
        (runCycle env s).1.cyclesCompleted = s.cyclesCompleted) ∧
    (∀ s env, env.request = RequestOutcome.fetchError →
        (runCycle env s).2 = false ∧
        (runCycle env s).1.otherErrors = s.otherErrors + 1 ∧
        (runCycle env s).1.timeoutErrors = s.timeoutErrors) ∧
    (∀ s env lat tlat, env.request = RequestOutcome.ok lat →
        env.tokenWait = TokenWaitOutcome.ok tlat →
        env.doneWait = DoneWaitOutcome.ok →
        env.parse = ParseOutcome.error →
        (runCycle env s).2 = false ∧
        (runCycle env s).1.otherErrors = s.otherErrors + 1 ∧
        (runCycle env s).1.timeoutErrors = s.timeoutErrors) ∧
    (∀ n cid env sid, env.connectEnv.sessionResult = some sid →
        env.connectEnv.wsOk = true →
        (run n cid env).1.totalRequests
          = (List.range n).countP (fun i => requestOk (env.cycles i).request)) := by
  refine ⟨?_, ?_, ?_, ?_, ?_, ?_⟩
  · intro s env h
    rcases env with ⟨req, tok, don, par⟩
    cases h
    simp [runCycle]
  · intro s env lat h1 h2
    rcases env with ⟨req, tok, don, par⟩
    cases h1
    cases h2
    simp [runCycle]
  · intro s env lat tlat h1 h2 h3
    rcases env with ⟨req, tok, don, par⟩
    cases h1
    cases h2
    cases h3
    simp [runCycle]
  · intro s env h
    rcases env with ⟨req, tok, don, par⟩
    cases h
    simp [runCycle]
  · intro s env lat tlat h1 h2 h3 h4
    rcases env with ⟨req, tok, don, par⟩
    cases h1
    cases h2
    cases h3
    cases h4
    simp [runCycle]
  · intro n cid env sid hs hw
    rw [run]
    rw [connect_success_eq env.connectEnv
      { sessionId := ""
        stats := { ClientStats.init cid "" with startTime := env.startClock }
        wsConnected := false } sid rfl hs hw]
    simp only [disconnect]
    rw [foldl_runCycle_totalRequests]
    simp [ClientStats.init]

/-- A cycle environment whose completion wait times out. -/
def doneTimeoutEnv : CycleEnv :=
  { request := RequestOutcome.ok 1, tokenWait := TokenWaitOutcome.ok 1
    doneWait := DoneWaitOutcome.timeout, parse := ParseOutcome.ok }

/-- Witness for C5 at the completion-timeout cycle environment. -/
theorem runCycle_timeout_classification_witness :
    (doneTimeoutEnv.request = RequestOutcome.ok 1 ∧
      doneTimeoutEnv.tokenWait = TokenWaitOutcome.ok 1 ∧
      doneTimeoutEnv.doneWait = DoneWaitOutcome.timeout) ∧
    ((runCycle doneTimeoutEnv (ClientStats.init 0 "")).2 = false ∧
      (runCycle doneTimeoutEnv (ClientStats.init 0 "")).1.timeoutErrors
        = (ClientStats.init 0 "").timeoutErrors + 1 ∧
      (runCycle doneTimeoutEnv (ClientStats.init 0 "")).1.otherErrors
        = (ClientStats.init 0 "").otherErrors ∧
      (runCycle doneTimeoutEnv (ClientStats.init 0 "")).1.totalRequests
        = (ClientStats.init 0 "").totalRequests + 1 ∧
      (runCycle doneTimeoutEnv (ClientStats.init 0 "")).1.cyclesCompleted
        = (ClientStats.init 0 "").cyclesCompleted) :=
  ⟨⟨rfl, rfl, rfl⟩,
    runCycle_timeout_classification.2.2.1 (ClientStats.init 0 "") doneTimeoutEnv 1 1
      rfl rfl rfl⟩

/-- A run environment in which the session-create call succeeds but the
WebSocket establishment fails. -/
def envWsFail : RunEnv :=
  { connectEnv := { sessionResult := some "sid", wsOk := false }
    cycles := fun _ => cycleEnvOk, closeSessionOk := true
    startClock := 0, endClock := 1 }

/-- C9 counterexample: a run in which the session-create call returned a
session id but the transport open failed.  The returned stats record the
acquired session id, yet the session-close call was never issued during the
run — run() returns from the failed connect without calling disconnect(). -/
theorem run_session_leak_counterexample :
    (run 1 0 envWsFail).1.sessionId = "sid" ∧ (run 1 0 envWsFail).2 = false := by
  constructor <;> rfl

/-- C9 amended: for every client whose connect() succeeded as a whole
(session created with a nonempty id and transport established), the
session-close call is issued by the end of run(); and errors on the release
path are tolerated — the outcome of the session-close call has no effect on
the result of run(). -/
theorem run_closes_session_after_successful_connect (n cid : ℕ) (env : RunEnv)
    (sid : String) (hsid : env.connectEnv.sessionResult = some sid) (hne : sid ≠ "")
    (hws : env.connectEnv.wsOk = true) :
    (run n cid env).2 = true ∧
    (∀ b : Bool, run n cid { env with closeSessionOk := b } = run n cid env) := by
  constructor
  · rw [run, connect_success_eq env.connectEnv
      { sessionId := ""
        stats := { ClientStats.init cid "" with startTime := env.startClock }
        wsConnected := false } sid rfl hsid hws]
    simp [disconnect, hne]
  · intro b
    rfl

/-- A run environment in which everything succeeds. -/
def envAllOk : RunEnv :=
  { connectEnv := { sessionResult := some "sid", wsOk := true }
    cycles := fun _ => cycleEnvOk, closeSessionOk := true
    startClock := 0, endClock := 1 }

/-- Witness for the amended C9 at the all-success environment. -/
theorem run_closes_session_after_successful_connect_witness :
    (envAllOk.connectEnv.sessionResult = some "sid" ∧ ("sid" : String) ≠ "" ∧
      envAllOk.connectEnv.wsOk = true) ∧
    ((run 1 0 envAllOk).2 = true ∧
      (∀ b : Bool, run 1 0 { envAllOk with closeSessionOk := b } = run 1 0 envAllOk)) :=
  ⟨⟨rfl, by decide, rfl⟩,
    run_closes_session_after_successful_connect 1 0 envAllOk "sid" rfl (by decide) rfl⟩

/-- Invariant of the coordinator: the done-promise generation tracks the
cycle counter; every buffered token arrived during the current cycle (the
reset empties the buffer); queued resolvers were registered in the current or
an earlier cycle; every satisfied token wait was satisfied by a token that
arrived no earlier than the waiting cycle; and every satisfied completion
wait was satisfied by a done event that arrived during its own cycle. -/
def CoordInv (s : CoordState) : Prop :=
  s.doneGen = s.currentCycle ∧
  (∀ t ∈ s.tokenQueue, t.arrived = s.currentCycle) ∧
  (∀ rc ∈ s.tokenResolvers, rc ≤ s.currentCycle) ∧
  (∀ f ∈ s.tokenFulfils, f.waiter ≤ f.arrived) ∧
  (∀ f ∈ s.doneFulfils, f.waiter = f.arrived)

lemma coordStep_inv (s : CoordState) (e : CoordEvent) (h : CoordInv s) :
    CoordInv (coordStep s e) := by
  obtain ⟨hgen, hq, hr, htf, hdf⟩ := h
  cases e with
  | resetCycle =>
    refine ⟨by simp [coordStep, hgen], by simp [coordStep], ?_, ?_, ?_⟩ <;>
      simp only [coordStep]
    · intro rc hrc
      exact le_trans (hr rc hrc) (Nat.le_succ _)
    · exact htf
    · exact hdf
  | arriveToken origin =>
    rcases hres : s.tokenResolvers with _ | ⟨rc, rest⟩
    · simp only [coordStep, hres]
      refine ⟨hgen, ?_, ?_, htf, hdf⟩
      · intro t ht
        rcases List.mem_append.mp ht with h1 | h2
        · exact hq t h1
        · rw [List.mem_singleton.mp h2]
      · intro rc hrc
        simp at hrc
    · rcases hqq : s.tokenQueue with _ | ⟨t, qrest⟩
      · simp only [coordStep, hres, hqq]
        refine ⟨hgen, ?_, ?_, ?_, hdf⟩
        · intro t ht
          simp at ht
        · intro x hx
          exact hr x (by rw [hres]; exact List.mem_cons_of_mem rc hx)
        · intro f hf
          rcases List.mem_append.mp hf with h1 | h2
          · exact htf f h1
          · rw [List.mem_singleton.mp h2]
            exact hr rc (by rw [hres]; exact List.mem_cons_self rc rest)
      · simp only [coordStep, hres, hqq]
        refine ⟨hgen, ?_, ?_, ?_, hdf⟩
        · intro x hx
          rcases List.mem_append.mp hx with h1 | h2
          · exact hq x (by rw [hqq]; exact List.mem_cons_of_mem t h1)
          · rw [List.mem_singleton.mp h2]
        · intro x hx
          exact hr x (by rw [hres]; exact List.mem_cons_of_mem rc hx)
        · intro f hf
          rcases List.mem_append.mp hf with h1 | h2
          · exact htf f h1
          · rw [List.mem_singleton.mp h2]
            have harr : t.arrived = s.currentCycle :=
              hq t (by rw [hqq]; exact List.mem_cons_self t qrest)
            have hrc : rc ≤ s.currentCycle :=
              hr rc (by rw [hres]; exact List.mem_cons_self rc rest)
            simpa [harr] using hrc
  | arriveDone origin =>
    by_cases hd : s.doneResolved
    · simpa [coordStep, hd] using ⟨hgen, hq, hr, htf, hdf⟩
    · simp only [coordStep, if_neg hd]
      refine ⟨hgen, hq, hr, htf, ?_⟩
      intro f hf
      rcases List.mem_append.mp hf with h1 | h2
      · exact hdf f h1
      · rw [List.mem_singleton.mp h2]
        exact hgen
  | waitToken =>
    rcases hqq : s.tokenQueue with _ | ⟨t, qrest⟩
    · simp only [coordStep, hqq]
      refine ⟨hgen, ?_, ?_, htf, hdf⟩
      · intro x hx
        simp at hx
      · intro x hx
        rcases List.mem_append.mp hx with h1 | h2
        · exact hr x h1
        · rw [List.mem_singleton.mp h2]
    · simp only [coordStep, hqq]
      refine ⟨hgen, ?_, hr, ?_, hdf⟩
      · intro x hx
        exact hq x (by rw [hqq]; exact List.mem_cons_of_mem t hx)
      · intro f hf
        rcases List.mem_append.mp hf with h1 | h2
        · exact htf f h1
        · rw [List.mem_singleton.mp h2]
          have harr : t.arrived = s.currentCycle :=
            hq t (by rw [hqq]; exact List.mem_cons_self t qrest)
          simp [harr]

lemma coordInv_init : CoordInv coordInit := by
  refine ⟨rfl, ?_, ?_, ?_, ?_⟩ <;> intro x hx <;> cases hx

lemma coordInv_foldl (tr : List CoordEvent) :
    ∀ s, CoordInv s → CoordInv (tr.foldl coordStep s) := by
  induction tr with
  | nil => intro s h; exact h
  | cons e t ih => intro s h; exact ih _ (coordStep_inv s e h)

/-- C1 counterexample.  First trace: cycle 1 runs and times out with no done
event; cycle 2 starts (reset); then the done event of cycle 1's request
arrives late — and it resolves cycle 2's freshly armed completion promise:
the completion wait of cycle 2 (generation 2) is satisfied by an origin-1
event.  Second trace: cycle 1's first-token wait registers a resolver and
times out; cycle 2 starts (reset does not clear the resolver queue); cycle
2's own token arrives and is handed to the stale cycle-1 resolver. -/
theorem coordinator_reset_counterexample :
    (coordRun [CoordEvent.resetCycle, CoordEvent.resetCycle,
        CoordEvent.arriveDone 1]).doneFulfils
      = [{ waiter := 2, origin := 1, arrived := 2 }] ∧
    (coordRun [CoordEvent.resetCycle, CoordEvent.waitToken, CoordEvent.resetCycle,
        CoordEvent.arriveToken 2]).tokenFulfils
      = [{ waiter := 1, origin := 2, arrived := 2 }] := by
  constructor <;> rfl

/-- C1 amended: the start-of-cycle reset empties the pending token buffer and
re-arms the completion promise, so an event that was delivered before the
reset never satisfies a wait registered after it: every satisfied token wait
received a token that arrived in the waiting cycle or later (never an earlier
cycle's leftover), and every satisfied completion wait was resolved by a done
event delivered during that same cycle's window.  (Events of a prior cycle
that are delivered after the reset are indistinguishable from current events
and can still satisfy the new cycle's waits, and the token resolver queue is
not cleared — the counterexample.) -/
theorem coordinator_reset_amended :
    (∀ s : CoordState, (coordStep s CoordEvent.resetCycle).tokenQueue = [] ∧
        (coordStep s CoordEvent.resetCycle).doneResolved = false) ∧
    (∀ tr : List CoordEvent, ∀ f ∈ (coordRun tr).tokenFulfils, f.waiter ≤ f.arrived) ∧
    (∀ tr : List CoordEvent, ∀ f ∈ (coordRun tr).doneFulfils, f.waiter = f.arrived) := by
  refine ⟨fun s => ⟨rfl, rfl⟩, ?_, ?_⟩
  · intro tr f hf
    exact (coordInv_foldl tr coordInit coordInv_init).2.2.2.1 f hf
  · intro tr f hf
    exact (coordInv_foldl tr coordInit coordInv_init).2.2.2.2 f hf

/-- Witness for the amended C1 at a concrete trace: cycle 1 buffers a token
and then consumes it. -/
theorem coordinator_reset_amended_witness :
    ({ waiter := 1, origin := 5, arrived := 1 } : Fulfil)
      ∈ (coordRun [CoordEvent.resetCycle, CoordEvent.arriveToken 5,
          CoordEvent.waitToken]).tokenFulfils ∧
    (1 : ℕ) ≤ 1 :=
  ⟨by decide,
    coordinator_reset_amended.2.1
      [CoordEvent.resetCycle, CoordEvent.arriveToken 5, CoordEvent.waitToken]
      { waiter := 1, origin := 5, arrived := 1 } (by decide)⟩

/-- Invariant of the semaphore: permits plus active clients account for the
whole capacity; a nonempty waiter queue means no permit is free; the active
list and the queue hold distinct clients and are disjoint. -/
def SemInv (k : ℕ) (s : SemState) : Prop :=
  s.active.length + s.permits = k ∧
  (s.queue ≠ [] → s.permits = 0) ∧
  s.active.Nodup ∧
  s.queue.Nodup ∧
  (∀ c ∈ s.queue, c ∉ s.active)

lemma semStep_inv {k : ℕ} {s : SemState} {e : SemEvent}
    (hv : semValid s e) (h : SemInv k s) : SemInv k (semStep s e) := by
  obtain ⟨hlen, hqp, hna, hnq, hdisj⟩ := h
  cases e with
  | tryAcquire c =>
    obtain ⟨hca, hcq⟩ := hv
    by_cases hp : 0 < s.permits
    · have hqe : s.queue = [] := by
        by_contra hne
        have := hqp hne
        omega
      simp only [semStep, if_pos hp]
      refine ⟨by simp; omega, by simp [hqe], ?_, by simp [hqe, hnq], ?_⟩
      · simp [List.nodup_append, hna, hca]
      · intro x hx
        rw [hqe] at hx
        cases hx
    · have hp0 : s.permits = 0 := by omega
      simp only [semStep, if_neg hp]
      refine ⟨by simpa using hlen, fun _ => hp0, hna, ?_, ?_⟩
      · simp [List.nodup_append, hnq, hcq]
      · intro x hx
        rcases List.mem_append.mp hx with h1 | h2
        · exact hdisj x h1
        · rw [List.mem_singleton.mp h2]
          exact hca
  | release c =>
    have hcmem : c ∈ s.active := hv
    have hlen1 : 1 ≤ s.active.length := List.length_pos.mpr (List.ne_nil_of_mem hcmem)
    have herase : (s.active.erase c).length = s.active.length - 1 :=
      List.length_erase_of_mem hcmem
    rcases hqq : s.queue with _ | ⟨w, rest⟩
    · simp only [semStep, hqq]
      refine ⟨by dsimp only; rw [herase]; omega, by simp, hna.erase c, by simp, by simp⟩
    · have hp0 : s.permits = 0 := hqp (by rw [hqq]; simp)
      have hwq : w ∈ s.queue := by rw [hqq]; exact List.mem_cons_self w rest
      have hwa : w ∉ s.active := hdisj w hwq
      have hwrest : w ∉ rest := by
        have := hnq
        rw [hqq] at this
        exact (List.nodup_cons.mp this).1
      have hrestnd : rest.Nodup := by
        have := hnq
        rw [hqq] at this
        exact (List.nodup_cons.mp this).2
      simp only [semStep, hqq]
      refine ⟨?_, ?_, ?_, hrestnd, ?_⟩
      · dsimp only
        rw [List.length_append, List.length_singleton, herase]
        omega
      · intro _
        dsimp only
        omega
      · refine List.Nodup.append (hna.erase c) (List.nodup_singleton w) ?_
        intro x hx hxw
        rw [List.mem_singleton.mp hxw] at hx
        exact hwa (List.mem_of_mem_erase hx)
      · intro x hx
        have hxq : x ∈ s.queue := by rw [hqq]; exact List.mem_cons_of_mem w hx
        intro hmem
        rcases List.mem_append.mp hmem with h1 | h2
        · exact hdisj x hxq (List.mem_of_mem_erase h1)
        · rw [List.mem_singleton.mp h2] at hx
          exact hwrest hx

lemma semReach_inv {k : ℕ} {s : SemState} (h : SemReach k s) : SemInv k s := by
  induction h with
  | init =>
    refine ⟨by simp [semInit], by simp [semInit], by simp [semInit],
      by simp [semInit], by simp [semInit]⟩
  | step hr hv ih => exact semStep_inv hv ih

/-- C2: in every reachable state of the admission semaphore, at most
maxConcurrent clients hold a permit (are between the start and the settlement
of their run()); a release while clients are queued hands the freed permit to
the head of the waiter queue, the longest-waiting client, in FIFO order; and
the try/finally of runClient emits exactly one release per client, whether
its run() resolved or rejected. -/
theorem semaphore_admission_fifo (k : ℕ) :
    (∀ s, SemReach k s → s.active.length ≤ k) ∧
    (∀ s c w rest, SemReach k s → s.queue = w :: rest →
        (semStep s (SemEvent.release c)).queue = rest ∧
        w ∈ (semStep s (SemEvent.release c)).active) ∧
    (∀ c b, (runClientSemEvents c b).count (SemEvent.release c) = 1) := by
  refine ⟨?_, ?_, ?_⟩
  · intro s hs
    have := (semReach_inv hs).1
    omega
  · intro s c w rest _ hq
    simp [semStep, hq]
  · intro c b
    cases b <;> simp [runClientSemEvents, List.count_cons, List.count_nil]

/-- Witness for C2 at capacity 2 and the initial reachable state, plus a
concrete release handing the permit to the queued client. -/
theorem semaphore_admission_fifo_witness :
    SemReach 2 (semInit 2) ∧ (semInit 2).active.length ≤ 2 :=
  ⟨SemReach.init, (semaphore_admission_fifo 2).1 (semInit 2) SemReach.init⟩

lemma reconnectAux_attempts_le (outcome : ℕ → Bool) (maxRetries : ℕ) (cnt : JSVal) :
    ∀ r a, (reconnectAux outcome maxRetries cnt a r).2.1 ≤ a + r := by
  intro r
  induction r with
  | zero => intro a; simp [reconnectAux]
  | succ rr ih =>
    intro a
    by_cases h : outcome a
    · simp [reconnectAux, h]
    · simp only [reconnectAux, if_neg h]
      have := ih (a + 1)
      omega

/-- C8 evidence theorem.  The reconnection routine makes at most maxRetries
attempts.  At the default maxRetries = 3, exhausting all attempts returns
failure after delays of 1000 then 2000 ms and leaves the counter property
untouched; at maxRetries = 6 the delay doubling is capped at 10000 ms
(1000, 2000, 4000, 8000, 10000).  A successful first attempt returns true
after one attempt — but the reconnectionCount property, which the ClientStats
class never declares, goes from undefined to NaN instead of counting; had the
field existed as a number, the same path would increment it (last
conjunct). -/
theorem reconnect_backoff_and_missing_counter :
    (∀ (outcome : ℕ → Bool) (m : ℕ) (cnt : JSVal),
        (reconnectWebSocket outcome m cnt).2.1 ≤ m) ∧
    reconnectWebSocket (fun _ => true) 3 JSVal.undef = (true, 1, [], JSVal.nan) ∧
    reconnectWebSocket (fun _ => false) 3 JSVal.undef
      = (false, 3, [1000, 2000], JSVal.undef) ∧
    reconnectWebSocket (fun _ => false) 6 JSVal.undef
      = (false, 6, [1000, 2000, 4000, 8000, 10000], JSVal.undef) ∧
    reconnectWebSocket (fun i => i == 2) 3 (JSVal.num 0)
      = (true, 3, [1000, 2000], JSVal.num (0 + 1)) := by
  refine ⟨?_, by decide, by decide, by decide, by rfl⟩
  intro outcome m cnt
  simpa using reconnectAux_attempts_le outcome m cnt m 0

end CentrifugoEmu
